import Mathlib

/-!
Shallow embedding of `src/D2D_KPI.py`: a single-pipeline 5G D2D KPI
estimator.  The script loads a topology table (one base station, N UEs),
and for each of three predefined NR bands accumulates baseline
(UE → base station) and D2D (UE → parent, plus one relay → base hop per
unique relay) rate and power-proxy sums, then derives percentage savings.

Modelling conventions:
* Python floats are modelled by `ℝ`.
* `np.random.normal` draws are modelled by an oracle `ν : ℕ → ℝ` giving
  the value returned by the i-th call to `noise(bw)`; the draw counter is
  threaded through the passes exactly as the calls occur in the script.
* Python's `/` raises `ZeroDivisionError` on a zero denominator; the two
  percentage derivations, whose denominators can genuinely be zero, are
  modelled with `pydiv : ℝ → ℝ → Option ℝ` (`none` = the uncaught error).
  Divisions whose denominators are fixed nonzero numeric constants are
  modelled with `ℝ` division directly.
* `pandas` row lookups (`.iloc[0]` on a filtered frame) raise on an empty
  result; they are modelled with `List.find?` and `Option` propagation.
* The Python `set` used for relay deduplication is modelled by collecting
  the ids in a list and iterating over `List.dedup` (sums over `ℝ` are
  order-insensitive, so the set's iteration order is immaterial).
-/

noncomputable section

namespace D2D

/-- Constant `PATH_EXP = 3` (the path-loss exponent, a natural power). -/
def PATH_EXP : ℕ := 3

/-- Constant `EARTH_R = 6_371_000` (mean Earth radius, m). -/
def EARTH_R : ℝ := 6371000

/-- Constant `TEMP_K = 290`. -/
def TEMP_K : ℝ := 290

/-- Constant `BOLTZ = 1.38064852e-23`. -/
def BOLTZ : ℝ := 1.38064852e-23

/-- Constant `C_LIGHT = 299792458`. -/
def C_LIGHT : ℝ := 299792458

/-- Constant `BS_RX_GAIN = 10 ** (14 / 10)` (base-station receive gain, linear). -/
def BS_RX_GAIN : ℝ := 10 ^ ((14 : ℝ) / 10)

/-- Constant `UE_TX_GAIN = 10 ** (0 / 10)` (UE transmit gain, linear). -/
def UE_TX_GAIN : ℝ := 10 ^ ((0 : ℝ) / 10)

/-- Constant `PARENT_RX_GAIN = 10 ** (6 / 10)` (relay receive gain, linear). -/
def PARENT_RX_GAIN : ℝ := 10 ^ ((6 : ℝ) / 10)

/-- Constant `MIMO_STREAMS = 4` (spatial-stream multiplier). -/
def MIMO_STREAMS : ℝ := 4

/-- One entry of the `NR_BANDS` table: carrier frequency, bandwidth, EIRP. -/
structure Band where
  fc : ℝ
  bw : ℝ
  eirp_dbm : ℝ

/-- The `NR_BANDS` dict, in its source order. -/
def NR_BANDS : List (String × Band) :=
  [("n77", ⟨3.7e9, 200e6, 30⟩), ("n260", ⟨39e9, 1600e6, 30⟩), ("n261", ⟨28e9, 1600e6, 30⟩)]

/-- One row of the input CSV: id, name, coordinates, optional parent id
(`Parent ID` is NaN in pandas when absent, modelled as `none`). -/
structure Node where
  id : Int
  name : String
  lat : ℝ
  lon : ℝ
  parentId : Option Int

/-- Python's `math.radians`. -/
def radians (x : ℝ) : ℝ := x * Real.pi / 180

/-- C-library `math.atan2 y x` (quadrant-aware arctangent). -/
def atan2 (y x : ℝ) : ℝ :=
  if 0 < x then Real.arctan (y / x)
  else if x < 0 then
    (if 0 ≤ y then Real.arctan (y / x) + Real.pi else Real.arctan (y / x) - Real.pi)
  else if 0 < y then Real.pi / 2
  else if y < 0 then -(Real.pi / 2)
  else 0

/-- The script's `haversine_m(row, bs_lat, bs_lon)`: great-circle distance in
metres from `(lat, lon)` (the row's coordinates) to `(bs_lat, bs_lon)`. -/
def haversine_m (lat lon bs_lat bs_lon : ℝ) : ℝ :=
  let phi1 := radians lat
  let phi2 := radians bs_lat
  let dphi := radians (bs_lat - lat)
  let dlmb := radians (bs_lon - lon)
  let a := Real.sin (dphi / 2) ^ 2 +
    Real.cos phi1 * Real.cos phi2 * Real.sin (dlmb / 2) ^ 2
  EARTH_R * 2 * atan2 (Real.sqrt a) (Real.sqrt (1 - a))

/-- The script's `dbm_to_w`. -/
def dbm_to_w (dbm : ℝ) : ℝ := 10 ^ ((dbm - 30) / 10)

/-- The script's `rayleigh_path_loss(fc, d) = d ** PATH_EXP / lambda_c ** 2`. -/
def rayleigh_path_loss (fc d : ℝ) : ℝ :=
  let lambda_c := C_LIGHT / fc
  d ^ PATH_EXP / lambda_c ^ 2

/-- The script's `snr_rayleigh(pt, d, fc, g_tx, g_rx, bw)`.  The value the
call to `noise(bw)` returned is passed as `nv` (see the header: the random
sampler is modelled by an oracle of draws). -/
def snr_rayleigh (pt d fc g_tx g_rx nv : ℝ) : ℝ :=
  let d' := if d = 0 then 0.1 else d
  let path_loss := rayleigh_path_loss fc d'
  let prx := pt * g_tx * g_rx / path_loss
  prx / |nv|

/-- The script's `capacity(bw, snr_lin) = bw * log2(1 + snr_lin)`. -/
def capacity (bw snr_lin : ℝ) : ℝ := bw * Real.logb 2 (1 + snr_lin)

/-- Python's true division: `ZeroDivisionError` (modelled `none`) when the
denominator is zero. -/
def pydiv (x y : ℝ) : Option ℝ := if y = 0 then none else some (x / y)

/-- Body of the baseline loop, rate part:
`MIMO_STREAMS * capacity(bw, max(snr_rayleigh(pt, d_bs, fc, UE_TX_GAIN, BS_RX_GAIN, bw), 0.01))`
with `d_bs = haversine_m(ue, bs)` and `nv` the noise draw consumed. -/
def baseRateTerm (bs ue : Node) (fc bw pt nv : ℝ) : ℝ :=
  MIMO_STREAMS * capacity bw
    (max (snr_rayleigh pt (haversine_m ue.lat ue.lon bs.lat bs.lon) fc UE_TX_GAIN BS_RX_GAIN nv)
      0.01)

/-- Body of the baseline loop, power part: `(d_bs / 1000) ** PATH_EXP`. -/
def basePowerTerm (bs ue : Node) : ℝ :=
  (haversine_m ue.lat ue.lon bs.lat bs.lon / 1000) ^ PATH_EXP

/-- Body of the D2D loop, rate part, for a resolved `parent`: gain is
`BS_RX_GAIN` when the parent is the base station row, else `PARENT_RX_GAIN`. -/
def d2dRateTerm (bs parent ue : Node) (fc bw pt nv : ℝ) : ℝ :=
  let d_up := haversine_m ue.lat ue.lon parent.lat parent.lon
  let g_rx := if parent.id = bs.id then BS_RX_GAIN else PARENT_RX_GAIN
  MIMO_STREAMS * capacity bw (max (snr_rayleigh pt d_up fc UE_TX_GAIN g_rx nv) 0.01)

/-- Body of the D2D loop, power part: `(d_up / 1000) ** PATH_EXP`. -/
def d2dPowerTerm (parent ue : Node) : ℝ :=
  (haversine_m ue.lat ue.lon parent.lat parent.lon / 1000) ^ PATH_EXP

/-- Body of the relay loop, rate part: one relay → base-station hop. -/
def relayRateTerm (bs parent : Node) (fc bw pt nv : ℝ) : ℝ :=
  MIMO_STREAMS * capacity bw
    (max (snr_rayleigh pt (haversine_m parent.lat parent.lon bs.lat bs.lon) fc UE_TX_GAIN
        BS_RX_GAIN nv)
      0.01)

/-- Body of the relay loop, power part: `(d_pb / 1000) ** PATH_EXP`. -/
def relayPowerTerm (bs parent : Node) : ℝ :=
  (haversine_m parent.lat parent.lon bs.lat bs.lon / 1000) ^ PATH_EXP

/-- Line 86: `parent = bs if pd.isna(ue["Parent ID"]) else df[df["ID"] == ue["Parent ID"]].iloc[0]`.
`none` models the `IndexError` when the referenced id matches no row. -/
def resolveParent (df : List Node) (bs : Node) (ue : Node) : Option Node :=
  match ue.parentId with
  | none => some bs
  | some pid => df.find? fun n => n.id == pid

/-- The baseline loop (lines 79-83): returns `((rate_baseline, power_baseline),
next draw index)`.  One noise draw is consumed per UE. -/
def baselinePass (bs : Node) (fc bw pt : ℝ) (ν : ℕ → ℝ) :
    List Node → ℕ → (ℝ × ℝ) × ℕ
  | [], k => ((0, 0), k)
  | ue :: rest, k =>
    let r := baselinePass bs fc bw pt ν rest (k + 1)
    ((baseRateTerm bs ue fc bw pt (ν k) + r.1.1, basePowerTerm bs ue + r.1.2), r.2)

/-- The D2D loop (lines 85-93): returns `((rate_d2d, power_d2d, collected
parent ids), next draw index)`; the collected id list stands for the Python
`parents` set (it is `dedup`-ed before the relay loop). -/
def d2dPass (df : List Node) (bs : Node) (fc bw pt : ℝ) (ν : ℕ → ℝ) :
    List Node → ℕ → Option ((ℝ × ℝ × List Int) × ℕ)
  | [], k => some ((0, 0, []), k)
  | ue :: rest, k =>
    match resolveParent df bs ue with
    | none => none
    | some parent =>
      match d2dPass df bs fc bw pt ν rest (k + 1) with
      | none => none
      | some ((r, p, ps), k') =>
        some ((d2dRateTerm bs parent ue fc bw pt (ν k) + r,
               d2dPowerTerm parent ue + p,
               if parent.id = bs.id then ps else parent.id :: ps), k')

/-- The relay loop (lines 95-100), over the deduplicated parent ids:
`parent = df[df["ID"] == pid].iloc[0]`, then one relay → base hop. -/
def relayPass (df : List Node) (bs : Node) (fc bw pt : ℝ) (ν : ℕ → ℝ) :
    List Int → ℕ → Option ((ℝ × ℝ) × ℕ)
  | [], k => some ((0, 0), k)
  | pid :: rest, k =>
    match df.find? (fun n => n.id == pid) with
    | none => none
    | some parent =>
      match relayPass df bs fc bw pt ν rest (k + 1) with
      | none => none
      | some ((r, p), k') =>
        some ((relayRateTerm bs parent fc bw pt (ν k) + r,
               relayPowerTerm bs parent + p), k')

/-- One row of `results` before string formatting: the raw numeric values
from which every formatted column of the output table is printed. -/
structure Row where
  band : String
  power_baseline : ℝ
  power_d2d : ℝ
  power_saving : ℝ
  rate_baseline : ℝ
  rate_d2d : ℝ
  rate_gain : ℝ

/-- One iteration of the band loop (lines 69-114): the three passes, then
`power_saving = (1 - power_d2d / power_baseline) * 100` and
`rate_gain = (rate_d2d - rate_baseline) / rate_baseline * 100`. -/
def bandResult (df : List Node) (bs : Node) (ues : List Node) (tag : String)
    (band : Band) (ν : ℕ → ℝ) (k : ℕ) : Option (Row × ℕ) :=
  let pt := dbm_to_w band.eirp_dbm
  match baselinePass bs band.fc band.bw pt ν ues k with
  | ((rate_b, power_b), k1) =>
    match d2dPass df bs band.fc band.bw pt ν ues k1 with
    | none => none
    | some ((rate_d0, power_d0, ps), k2) =>
      match relayPass df bs band.fc band.bw pt ν ps.dedup k2 with
      | none => none
      | some ((rate_dr, power_dr), k3) =>
        match pydiv (power_d0 + power_dr) power_b with
        | none => none
        | some q =>
          match pydiv (rate_d0 + rate_dr - rate_b) rate_b with
          | none => none
          | some g =>
            some ({ band := tag, power_baseline := power_b,
                    power_d2d := power_d0 + power_dr,
                    power_saving := (1 - q) * 100,
                    rate_baseline := rate_b,
                    rate_d2d := rate_d0 + rate_dr,
                    rate_gain := g * 100 }, k3)

/-- The band loop over `NR_BANDS`, threading the draw counter. -/
def runBands (df : List Node) (bs : Node) (ues : List Node) (ν : ℕ → ℝ) :
    List (String × Band) → ℕ → Option (List Row × ℕ)
  | [], k => some ([], k)
  | (tag, band) :: rest, k =>
    match bandResult df bs ues tag band ν k with
    | none => none
    | some (row, k') =>
      match runBands df bs ues ν rest k' with
      | none => none
      | some (rows, k'') => some (row :: rows, k'')

/-- Lines 62-64 and 69-114 end to end: select the base-station row by name
(`.iloc[0]` = first match), take the remaining rows as UEs, run the bands. -/
def program (df : List Node) (ν : ℕ → ℝ) : Option (List Row) :=
  match df.find? (fun n => n.name == "BaseStation") with
  | none => none
  | some bs =>
    match runBands df bs (df.filter fun n => n.name != "BaseStation") ν NR_BANDS 0 with
    | none => none
    | some (rows, _) => some rows

/-- Specification-side sum with exactly one relay → base rate term per listed
id (draws consumed in order); used to state what `relayPass` accumulates. -/
def relayRateSum (df : List Node) (bs : Node) (fc bw pt : ℝ) (ν : ℕ → ℝ) :
    List Int → ℕ → ℝ
  | [], _ => 0
  | pid :: rest, k =>
    (match df.find? (fun n => n.id == pid) with
     | some parent => relayRateTerm bs parent fc bw pt (ν k)
     | none => 0) + relayRateSum df bs fc bw pt ν rest (k + 1)

/-- Specification-side sum with exactly one relay → base power-proxy term per
listed id; used to state what `relayPass` accumulates. -/
def relayPowerSum (df : List Node) (bs : Node) : List Int → ℝ
  | [] => 0
  | pid :: rest =>
    (match df.find? (fun n => n.id == pid) with
     | some parent => relayPowerTerm bs parent
     | none => 0) + relayPowerSum df bs rest

/-! Concrete topology used by the witness theorems: a base station at the
origin, a direct UE and a UE pointing at the base station's id at longitude
180, a relay UE at longitude 90 serving two children. -/

/-- Witness base station. -/
def wBs : Node := ⟨0, "BaseStation", 0, 0, none⟩

/-- Witness UE with no `Parent ID` (direct connection). -/
def wUeDirect : Node := ⟨1, "UE1", 0, 180, none⟩

/-- Witness UE whose `Parent ID` names the base station's id. -/
def wUeToBs : Node := ⟨2, "UE2", 0, 180, some 0⟩

/-- Witness relay UE. -/
def wRelay : Node := ⟨3, "UE3", 0, 90, none⟩

/-- Witness UE relayed through `wRelay`. -/
def wUeViaRelay : Node := ⟨4, "UE4", 0, 180, some 3⟩

/-- Witness second UE relayed through `wRelay`. -/
def wUeViaRelay2 : Node := ⟨5, "UE5", 0, 90, some 3⟩

/-- Witness data frame. -/
def wDf : List Node := [wBs, wUeDirect, wUeToBs, wRelay, wUeViaRelay, wUeViaRelay2]

/-- Witness noise oracle (all draws equal 1). -/
def wNu : ℕ → ℝ := fun _ => 1

/-- Witness band (the `n77` entry). -/
def wBand : Band := ⟨3.7e9, 200e6, 30⟩

/-! Helper lemmas shared by the claim theorems. -/

lemma atan2_nonneg (y x : ℝ) (hy : 0 ≤ y) : 0 ≤ atan2 y x := by
  unfold atan2
  split_ifs with h1 h2 h3 h4
  · have h0 : (0 : ℝ) ≤ y / x := div_nonneg hy h1.le
    simpa [Real.arctan_zero] using Real.arctan_strictMono.monotone h0
  · have := Real.neg_pi_div_two_lt_arctan (y / x)
    have := Real.pi_pos
    linarith
  · have := Real.pi_pos
    linarith
  · exact absurd h4 (not_lt.mpr hy)
  · exact le_refl 0

lemma haversine_nonneg (lat lon blat blon : ℝ) : 0 ≤ haversine_m lat lon blat blon := by
  simp only [haversine_m]
  exact mul_nonneg (by norm_num [EARTH_R]) (atan2_nonneg _ _ (Real.sqrt_nonneg _))

lemma capacity_floor_pos (bw s : ℝ) (hbw : 0 < bw) : 0 < capacity bw (max s 0.01) := by
  have h1 : (0.01 : ℝ) ≤ max s 0.01 := le_max_right _ _
  have h2 : (1 : ℝ) < 1 + max s 0.01 := by linarith
  have h3 := Real.logb_pos (by norm_num : (1 : ℝ) < 2) h2
  unfold capacity
  exact mul_pos hbw h3

lemma capacity_floor_nonneg (bw s : ℝ) (hbw : 0 ≤ bw) : 0 ≤ capacity bw (max s 0.01) := by
  have h1 : (0.01 : ℝ) ≤ max s 0.01 := le_max_right _ _
  unfold capacity
  exact mul_nonneg hbw (Real.logb_nonneg (by norm_num) (by linarith))

lemma baseRateTerm_pos (bs ue : Node) (fc bw pt nv : ℝ) (hbw : 0 < bw) :
    0 < baseRateTerm bs ue fc bw pt nv := by
  simp only [baseRateTerm, MIMO_STREAMS]
  have h := capacity_floor_pos bw
    (snr_rayleigh pt (haversine_m ue.lat ue.lon bs.lat bs.lon) fc UE_TX_GAIN BS_RX_GAIN nv) hbw
  linarith

lemma d2dRateTerm_pos (bs parent ue : Node) (fc bw pt nv : ℝ) (hbw : 0 < bw) :
    0 < d2dRateTerm bs parent ue fc bw pt nv := by
  simp only [d2dRateTerm, MIMO_STREAMS]
  have h := capacity_floor_pos bw
    (snr_rayleigh pt (haversine_m ue.lat ue.lon parent.lat parent.lon) fc UE_TX_GAIN
      (if parent.id = bs.id then BS_RX_GAIN else PARENT_RX_GAIN) nv) hbw
  linarith

lemma relayRateTerm_pos (bs parent : Node) (fc bw pt nv : ℝ) (hbw : 0 < bw) :
    0 < relayRateTerm bs parent fc bw pt nv := by
  simp only [relayRateTerm, MIMO_STREAMS]
  have h := capacity_floor_pos bw
    (snr_rayleigh pt (haversine_m parent.lat parent.lon bs.lat bs.lon) fc UE_TX_GAIN
      BS_RX_GAIN nv) hbw
  linarith

lemma basePowerTerm_nonneg (bs ue : Node) : 0 ≤ basePowerTerm bs ue := by
  unfold basePowerTerm
  exact pow_nonneg (div_nonneg (haversine_nonneg _ _ _ _) (by norm_num)) _

lemma d2dPowerTerm_nonneg (parent ue : Node) : 0 ≤ d2dPowerTerm parent ue := by
  unfold d2dPowerTerm
  exact pow_nonneg (div_nonneg (haversine_nonneg _ _ _ _) (by norm_num)) _

lemma relayPowerTerm_nonneg (bs parent : Node) : 0 ≤ relayPowerTerm bs parent := by
  unfold relayPowerTerm
  exact pow_nonneg (div_nonneg (haversine_nonneg _ _ _ _) (by norm_num)) _

/-! The claim theorems. -/

/-- Claim C7: the capacity function `bw * log2(1 + snr)` is strictly
increasing in the SNR (over the nonnegative SNR domain the program uses)
for every fixed positive bandwidth, and strictly increasing in the
bandwidth for every fixed positive SNR. -/
theorem capacity_monotone (bw bw1 bw2 s s1 s2 : ℝ) (hbw : 0 < bw) (hs1 : 0 ≤ s1)
    (h12 : s1 < s2) (hb12 : bw1 < bw2) (hs : 0 < s) :
    capacity bw s1 < capacity bw s2 ∧ capacity bw1 s < capacity bw2 s := by
  constructor
  · have hlog : Real.logb 2 (1 + s1) < Real.logb 2 (1 + s2) :=
      Real.logb_lt_logb (by norm_num) (by linarith) (by linarith)
    unfold capacity
    exact mul_lt_mul_of_pos_left hlog hbw
  · have hlog : 0 < Real.logb 2 (1 + s) := Real.logb_pos (by norm_num) (by linarith)
    unfold capacity
    exact mul_lt_mul_of_pos_right hb12 hlog

/-- Witness for C7 at concrete inputs. -/
theorem capacity_monotone_witness :
    capacity 1 0 < capacity 1 1 ∧ capacity 1 2 < capacity 2 2 :=
  capacity_monotone 1 1 2 2 0 1 (by norm_num) (by norm_num) (by norm_num)
    (by norm_num) (by norm_num)

/-- Claim C6: a zero link distance is substituted with 0.1 m inside
`snr_rayleigh` before the path loss `d^3 / (c/fc)^2` is evaluated, and the
path loss actually divided by is strictly positive for the (always
nonnegative) distance of any input point pair, so the division by the path
loss is never a division by zero. -/
theorem snr_zero_distance_guard (pt fc g_tx g_rx nv lat lon blat blon : ℝ)
    (hfc : fc ≠ 0) :
    snr_rayleigh pt 0 fc g_tx g_rx nv =
      pt * g_tx * g_rx / rayleigh_path_loss fc 0.1 / |nv| ∧
    0 < rayleigh_path_loss fc
      (if haversine_m lat lon blat blon = 0 then 0.1 else haversine_m lat lon blat blon) := by
  have hlam : 0 < (C_LIGHT / fc) ^ 2 :=
    pow_two_pos_of_ne_zero (div_ne_zero (by norm_num [C_LIGHT]) hfc)
  constructor
  · simp [snr_rayleigh]
  · by_cases h : haversine_m lat lon blat blon = 0
    · rw [if_pos h]
      simp only [rayleigh_path_loss]
      exact div_pos (pow_pos (by norm_num) _) hlam
    · rw [if_neg h]
      simp only [rayleigh_path_loss]
      have h0 : 0 < haversine_m lat lon blat blon :=
        lt_of_le_of_ne (haversine_nonneg _ _ _ _) (Ne.symm h)
      exact div_pos (pow_pos h0 _) hlam

/-- Witness for C6 at concrete inputs. -/
theorem snr_zero_distance_guard_witness :
    snr_rayleigh 1 0 1 1 1 1 = 1 * 1 * 1 / rayleigh_path_loss 1 0.1 / |1| ∧
    0 < rayleigh_path_loss 1
      (if haversine_m 0 0 0 0 = 0 then 0.1 else haversine_m 0 0 0 0) :=
  snr_zero_distance_guard 1 1 1 1 1 0 0 0 0 (by norm_num)

/-- Claim C2: with no UE rows both baseline accumulators stay at zero and
the percentage derivation divides by that zero baseline: the band
computation ends in the uncaught ZeroDivisionError (`none`); nothing in
the program guards, catches or recovers from it. -/
theorem empty_ues_divide_by_zero (df : List Node) (bs : Node) (tag : String)
    (band : Band) (ν : ℕ → ℝ) (k : ℕ) :
    (baselinePass bs band.fc band.bw (dbm_to_w band.eirp_dbm) ν [] k).1 = (0, 0) ∧
    bandResult df bs [] tag band ν k = none := by
  constructor
  · rfl
  · simp [bandResult, baselinePass, d2dPass, relayPass, pydiv]

/-- Claim C5: a UE whose `Parent ID` is absent resolves to the base
station; its D2D rate and power terms are exactly the baseline terms (same
distance, same `BS_RX_GAIN`, no `PARENT_RX_GAIN` discount), differing only
in which independent noise draw is consumed, and no relay id is recorded
for it. -/
theorem no_parent_matches_baseline (df : List Node) (bs ue : Node) (rest : List Node)
    (fc bw pt nv : ℝ) (ν : ℕ → ℝ) (k : ℕ) (h : ue.parentId = none) :
    resolveParent df bs ue = some bs ∧
    d2dRateTerm bs bs ue fc bw pt nv = baseRateTerm bs ue fc bw pt nv ∧
    d2dPowerTerm bs ue = basePowerTerm bs ue ∧
    d2dPass df bs fc bw pt ν (ue :: rest) k =
      Option.map (fun x => ((baseRateTerm bs ue fc bw pt (ν k) + x.1.1,
                              basePowerTerm bs ue + x.1.2.1, x.1.2.2), x.2))
        (d2dPass df bs fc bw pt ν rest (k + 1)) := by
  refine ⟨by simp [resolveParent, h], by simp [d2dRateTerm, baseRateTerm], rfl, ?_⟩
  cases hrec : d2dPass df bs fc bw pt ν rest (k + 1) with
  | none => simp [d2dPass, resolveParent, h, hrec]
  | some v =>
    obtain ⟨⟨r, p, ps⟩, k'⟩ := v
    simp [d2dPass, resolveParent, h, hrec, d2dRateTerm, baseRateTerm, d2dPowerTerm,
      basePowerTerm]

/-- Witness for C5 on the concrete topology. -/
theorem no_parent_matches_baseline_witness :
    resolveParent wDf wBs wUeDirect = some wBs ∧
    d2dRateTerm wBs wBs wUeDirect 1 1 1 1 = baseRateTerm wBs wUeDirect 1 1 1 1 ∧
    d2dPowerTerm wBs wUeDirect = basePowerTerm wBs wUeDirect ∧
    d2dPass wDf wBs 1 1 1 wNu (wUeDirect :: []) 0 =
      Option.map (fun x => ((baseRateTerm wBs wUeDirect 1 1 1 (wNu 0) + x.1.1,
                              basePowerTerm wBs wUeDirect + x.1.2.1, x.1.2.2), x.2))
        (d2dPass wDf wBs 1 1 1 wNu [] (0 + 1)) :=
  no_parent_matches_baseline wDf wBs wUeDirect [] 1 1 1 1 wNu 0 rfl

/-- Claim C10: a UE whose `Parent ID` is present and equals the base
station's own id resolves (through the id lookup) to the base-station row,
receives `BS_RX_GAIN`, records no relay id and triggers no extra
relay → base hop: its contribution is exactly that of a direct-connection
UE. -/
theorem parent_id_is_bs (df : List Node) (bs ue : Node) (rest : List Node)
    (fc bw pt : ℝ) (ν : ℕ → ℝ) (k : ℕ)
    (hpid : ue.parentId = some bs.id)
    (hfind : df.find? (fun n => n.id == bs.id) = some bs) :
    resolveParent df bs ue = some bs ∧
    d2dPass df bs fc bw pt ν (ue :: rest) k =
      Option.map (fun x => ((baseRateTerm bs ue fc bw pt (ν k) + x.1.1,
                              basePowerTerm bs ue + x.1.2.1, x.1.2.2), x.2))
        (d2dPass df bs fc bw pt ν rest (k + 1)) := by
  refine ⟨by simp [resolveParent, hpid, hfind], ?_⟩
  cases hrec : d2dPass df bs fc bw pt ν rest (k + 1) with
  | none => simp [d2dPass, resolveParent, hpid, hfind, hrec]
  | some v =>
    obtain ⟨⟨r, p, ps⟩, k'⟩ := v
    simp [d2dPass, resolveParent, hpid, hfind, hrec, d2dRateTerm, baseRateTerm,
      d2dPowerTerm, basePowerTerm]

/-- Witness for C10 on the concrete topology. -/
theorem parent_id_is_bs_witness :
    resolveParent wDf wBs wUeToBs = some wBs ∧
    d2dPass wDf wBs 1 1 1 wNu (wUeToBs :: []) 0 =
      Option.map (fun x => ((baseRateTerm wBs wUeToBs 1 1 1 (wNu 0) + x.1.1,
                              basePowerTerm wBs wUeToBs + x.1.2.1, x.1.2.2), x.2))
        (d2dPass wDf wBs 1 1 1 wNu [] (0 + 1)) :=
  parent_id_is_bs wDf wBs wUeToBs [] 1 1 1 wNu 0 rfl rfl

lemma baseRateTerm_nonneg (bs ue : Node) (fc bw pt nv : ℝ) (hbw : 0 ≤ bw) :
    0 ≤ baseRateTerm bs ue fc bw pt nv := by
  simp only [baseRateTerm, MIMO_STREAMS]
  have h := capacity_floor_nonneg bw
    (snr_rayleigh pt (haversine_m ue.lat ue.lon bs.lat bs.lon) fc UE_TX_GAIN BS_RX_GAIN nv) hbw
  linarith

lemma d2dRateTerm_nonneg (bs parent ue : Node) (fc bw pt nv : ℝ) (hbw : 0 ≤ bw) :
    0 ≤ d2dRateTerm bs parent ue fc bw pt nv := by
  simp only [d2dRateTerm, MIMO_STREAMS]
  have h := capacity_floor_nonneg bw
    (snr_rayleigh pt (haversine_m ue.lat ue.lon parent.lat parent.lon) fc UE_TX_GAIN
      (if parent.id = bs.id then BS_RX_GAIN else PARENT_RX_GAIN) nv) hbw
  linarith

lemma relayRateTerm_nonneg (bs parent : Node) (fc bw pt nv : ℝ) (hbw : 0 ≤ bw) :
    0 ≤ relayRateTerm bs parent fc bw pt nv := by
  simp only [relayRateTerm, MIMO_STREAMS]
  have h := capacity_floor_nonneg bw
    (snr_rayleigh pt (haversine_m parent.lat parent.lon bs.lat bs.lon) fc UE_TX_GAIN
      BS_RX_GAIN nv) hbw
  linarith

lemma baselinePass_nonneg (bs : Node) (fc bw pt : ℝ) (ν : ℕ → ℝ) (l : List Node) (k : ℕ)
    (hbw : 0 ≤ bw) :
    0 ≤ (baselinePass bs fc bw pt ν l k).1.1 ∧ 0 ≤ (baselinePass bs fc bw pt ν l k).1.2 := by
  induction l generalizing k with
  | nil => simp [baselinePass]
  | cons ue rest ih =>
    obtain ⟨ihr, ihp⟩ := ih (k + 1)
    simp only [baselinePass]
    exact ⟨add_nonneg (baseRateTerm_nonneg bs ue fc bw pt (ν k) hbw) ihr,
      add_nonneg (basePowerTerm_nonneg bs ue) ihp⟩

lemma d2dPass_nonneg (df : List Node) (bs : Node) (fc bw pt : ℝ) (ν : ℕ → ℝ)
    (l : List Node) (k : ℕ) (hbw : 0 ≤ bw) :
    match d2dPass df bs fc bw pt ν l k with
    | none => True
    | some x => 0 ≤ x.1.1 ∧ 0 ≤ x.1.2.1 := by
  induction l generalizing k with
  | nil => simp [d2dPass]
  | cons ue rest ih =>
    have ihk := ih (k + 1)
    cases hres : resolveParent df bs ue with
    | none => simp [d2dPass, hres]
    | some parent =>
      cases hrec : d2dPass df bs fc bw pt ν rest (k + 1) with
      | none => simp [d2dPass, hres, hrec]
      | some v =>
        obtain ⟨⟨r, p, ps⟩, k'⟩ := v
        rw [hrec] at ihk
        simp only at ihk
        simp only [d2dPass, hres, hrec]
        exact ⟨add_nonneg (d2dRateTerm_nonneg bs parent ue fc bw pt (ν k) hbw) ihk.1,
          add_nonneg (d2dPowerTerm_nonneg parent ue) ihk.2⟩

lemma relayPass_nonneg (df : List Node) (bs : Node) (fc bw pt : ℝ) (ν : ℕ → ℝ)
    (l : List Int) (k : ℕ) (hbw : 0 ≤ bw) :
    match relayPass df bs fc bw pt ν l k with
    | none => True
    | some x => 0 ≤ x.1.1 ∧ 0 ≤ x.1.2 := by
  induction l generalizing k with
  | nil => simp [relayPass]
  | cons pid rest ih =>
    have ihk := ih (k + 1)
    cases hres : df.find? (fun n => n.id == pid) with
    | none => simp [relayPass, hres]
    | some parent =>
      cases hrec : relayPass df bs fc bw pt ν rest (k + 1) with
      | none => simp [relayPass, hres, hrec]
      | some v =>
        obtain ⟨⟨r, p⟩, k'⟩ := v
        rw [hrec] at ihk
        simp only at ihk
        simp only [relayPass, hres, hrec]
        exact ⟨add_nonneg (relayRateTerm_nonneg bs parent fc bw pt (ν k) hbw) ihk.1,
          add_nonneg (relayPowerTerm_nonneg bs parent) ihk.2⟩

/-- Claim C4: every SNR handed to `capacity` has been floored at 0.01 (the
floored value is at least 0.01), each per-link capacity contribution of the
three passes is strictly positive for positive bandwidth (and each of the
three predefined bands has positive bandwidth), and the accumulated rate
and power-proxy sums of all three passes are nonnegative for every input
topology. -/
theorem snr_floor_sums_nonneg (df : List Node) (bs parent ue : Node) (ues : List Node)
    (l : List Int) (fc bw pt s nv : ℝ) (ν : ℕ → ℝ) (k : ℕ) (hbw : 0 < bw) :
    (∀ tb ∈ NR_BANDS, 0 < tb.2.bw) ∧
    0.01 ≤ max s 0.01 ∧
    (0 < baseRateTerm bs ue fc bw pt nv ∧ 0 < d2dRateTerm bs parent ue fc bw pt nv ∧
      0 < relayRateTerm bs parent fc bw pt nv) ∧
    (0 ≤ basePowerTerm bs ue ∧ 0 ≤ d2dPowerTerm parent ue ∧ 0 ≤ relayPowerTerm bs parent) ∧
    (0 ≤ (baselinePass bs fc bw pt ν ues k).1.1 ∧
      0 ≤ (baselinePass bs fc bw pt ν ues k).1.2) ∧
    (match d2dPass df bs fc bw pt ν ues k with
     | none => True
     | some x => 0 ≤ x.1.1 ∧ 0 ≤ x.1.2.1) ∧
    (match relayPass df bs fc bw pt ν l k with
     | none => True
     | some x => 0 ≤ x.1.1 ∧ 0 ≤ x.1.2) := by
  refine ⟨?_, le_max_right _ _,
    ⟨baseRateTerm_pos bs ue fc bw pt nv hbw, d2dRateTerm_pos bs parent ue fc bw pt nv hbw,
      relayRateTerm_pos bs parent fc bw pt nv hbw⟩,
    ⟨basePowerTerm_nonneg bs ue, d2dPowerTerm_nonneg parent ue,
      relayPowerTerm_nonneg bs parent⟩,
    baselinePass_nonneg bs fc bw pt ν ues k hbw.le,
    d2dPass_nonneg df bs fc bw pt ν ues k hbw.le,
    relayPass_nonneg df bs fc bw pt ν l k hbw.le⟩
  intro tb htb
  simp only [NR_BANDS, List.mem_cons, List.not_mem_nil, or_false] at htb
  rcases htb with h | h | h <;> subst h <;> norm_num

/-- Witness for C4 at concrete inputs. -/
theorem snr_floor_sums_nonneg_witness :
    (∀ tb ∈ NR_BANDS, 0 < tb.2.bw) ∧
    (0.01 : ℝ) ≤ max 5 0.01 ∧
    (0 < baseRateTerm wBs wUeDirect 1 1 1 1 ∧ 0 < d2dRateTerm wBs wRelay wUeDirect 1 1 1 1 ∧
      0 < relayRateTerm wBs wRelay 1 1 1 1) ∧
    (0 ≤ basePowerTerm wBs wUeDirect ∧ 0 ≤ d2dPowerTerm wRelay wUeDirect ∧
      0 ≤ relayPowerTerm wBs wRelay) ∧
    (0 ≤ (baselinePass wBs 1 1 1 wNu [] 0).1.1 ∧
      0 ≤ (baselinePass wBs 1 1 1 wNu [] 0).1.2) ∧
    (match d2dPass wDf wBs 1 1 1 wNu [] 0 with
     | none => True
     | some x => 0 ≤ x.1.1 ∧ 0 ≤ x.1.2.1) ∧
    (match relayPass wDf wBs 1 1 1 wNu [] 0 with
     | none => True
     | some x => 0 ≤ x.1.1 ∧ 0 ≤ x.1.2) :=
  snr_floor_sums_nonneg wDf wBs wRelay wUeDirect [] [] 1 1 1 5 1 wNu 0 (by norm_num)

lemma d2dPass_ps_found (df : List Node) (bs : Node) (fc bw pt : ℝ) (ν : ℕ → ℝ)
    (l : List Node) (k : ℕ) :
    match d2dPass df bs fc bw pt ν l k with
    | none => True
    | some x => ∀ pid ∈ x.1.2.2, ∃ nd, df.find? (fun n => n.id == pid) = some nd := by
  induction l generalizing k with
  | nil => simp [d2dPass]
  | cons ue rest ih =>
    have ihk := ih (k + 1)
    cases hres : resolveParent df bs ue with
    | none => simp [d2dPass, hres]
    | some parent =>
      cases hrec : d2dPass df bs fc bw pt ν rest (k + 1) with
      | none => simp [d2dPass, hres, hrec]
      | some v =>
        obtain ⟨⟨r, p, ps⟩, k'⟩ := v
        rw [hrec] at ihk
        simp only at ihk
        simp only [d2dPass, hres, hrec]
        intro pid hpid
        by_cases hid : parent.id = bs.id
        · rw [if_pos hid] at hpid
          exact ihk pid hpid
        · rw [if_neg hid] at hpid
          rcases List.mem_cons.mp hpid with hh | hh

          · subst hh
            cases hpp : ue.parentId with
            | none =>
              rw [resolveParent, hpp] at hres
              exact absurd (congrArg Node.id (Option.some.inj hres)).symm hid
            | some pid0 =>
              rw [resolveParent, hpp] at hres
              have hpa : parent.id = pid0 := by simpa using List.find?_some hres
              exact ⟨parent, by rw [hpa]; exact hres⟩
          · exact ihk pid hh

lemma relayPass_eq_sums (df : List Node) (bs : Node) (fc bw pt : ℝ) (ν : ℕ → ℝ)
    (l : List Int) (k : ℕ)
    (hall : ∀ pid ∈ l, ∃ nd, df.find? (fun n => n.id == pid) = some nd) :
    relayPass df bs fc bw pt ν l k =
      some ((relayRateSum df bs fc bw pt ν l k, relayPowerSum df bs l), k + l.length) := by
  induction l generalizing k with
  | nil => simp [relayPass, relayRateSum, relayPowerSum]
  | cons pid rest ih =>
    obtain ⟨nd, hnd⟩ := hall pid (List.mem_cons_self _ _)
    have hih := ih (k + 1) (fun q hq => hall q (List.mem_cons_of_mem _ hq))
    simp only [relayPass, relayRateSum, relayPowerSum, hnd, hih, List.length_cons]
    refine congrArg some (Prod.ext (Prod.ext rfl rfl) ?_)
    simp only
    omega

/-- Claim C1: in the D2D pass the collected relay ids are deduplicated by
identifier before the relay → base hops are added: a relay named as parent
by several UEs appears exactly once in the deduplicated list, and the relay
loop adds exactly one capacity term and one power-proxy term per listed id
(`relayRateSum` / `relayPowerSum` have one summand per element), consuming
exactly one noise draw per unique relay. -/
theorem relay_hop_once (df : List Node) (bs : Node) (fc bw pt : ℝ) (ν : ℕ → ℝ)
    (ues : List Node) (k : ℕ) :
    match d2dPass df bs fc bw pt ν ues k with
    | none => True
    | some x =>
      (∀ r : Int, r ∈ x.1.2.2 → x.1.2.2.dedup.count r = 1) ∧
      relayPass df bs fc bw pt ν x.1.2.2.dedup x.2 =
        some ((relayRateSum df bs fc bw pt ν x.1.2.2.dedup x.2,
               relayPowerSum df bs x.1.2.2.dedup), x.2 + x.1.2.2.dedup.length) := by
  have hfound := d2dPass_ps_found df bs fc bw pt ν ues k
  cases hd : d2dPass df bs fc bw pt ν ues k with
  | none => trivial
  | some x =>
    rw [hd] at hfound
    simp only at hfound ⊢
    constructor
    · intro r hr
      rw [List.count_dedup]
      simp [hr]
    · exact relayPass_eq_sums df bs fc bw pt ν x.1.2.2.dedup x.2
        (fun pid hpid => hfound pid (List.mem_dedup.mp hpid))

/-- Claim C3: whenever the three passes complete and the baseline sums are
nonzero, the reported percentages are exactly
`power_savings = (1 - power_d2d / power_baseline) * 100` and
`rate_gain = (rate_d2d - rate_baseline) / rate_baseline * 100`, with the four
operands the accumulated per-band sums. -/
theorem percent_formulas (df : List Node) (bs : Node) (ues : List Node) (tag : String)
    (band : Band) (ν : ℕ → ℝ) (k : ℕ) (rb pb : ℝ) (k1 : ℕ) (rd0 pd0 : ℝ)
    (ps : List Int) (k2 : ℕ) (rr pr : ℝ) (k3 : ℕ)
    (hb : baselinePass bs band.fc band.bw (dbm_to_w band.eirp_dbm) ν ues k = ((rb, pb), k1))
    (hd : d2dPass df bs band.fc band.bw (dbm_to_w band.eirp_dbm) ν ues k1 =
      some ((rd0, pd0, ps), k2))
    (hr : relayPass df bs band.fc band.bw (dbm_to_w band.eirp_dbm) ν ps.dedup k2 =
      some ((rr, pr), k3))
    (hpb : pb ≠ 0) (hrb : rb ≠ 0) :
    bandResult df bs ues tag band ν k =
      some ({ band := tag, power_baseline := pb, power_d2d := pd0 + pr,
              power_saving := (1 - (pd0 + pr) / pb) * 100,
              rate_baseline := rb, rate_d2d := rd0 + rr,
              rate_gain := (rd0 + rr - rb) / rb * 100 }, k3) := by
  simp only [bandResult, hb, hd, hr, pydiv, hpb, hrb]
  simp

lemma haversine_lon180 : haversine_m 0 180 0 0 = EARTH_R * Real.pi := by
  have e1 : (0 - 0 : ℝ) * Real.pi / 180 / 2 = 0 := by ring
  have e2 : (0 : ℝ) * Real.pi / 180 = 0 := by ring
  have e3 : (0 - 180 : ℝ) * Real.pi / 180 / 2 = -(Real.pi / 2) := by ring
  have e4 : Real.sin (-(Real.pi / 2)) = -1 := by
    rw [Real.sin_neg, Real.sin_pi_div_two]
  simp only [haversine_m, radians, e1, e2, e3, e4, Real.sin_zero, Real.cos_zero]
  norm_num
  unfold atan2
  rw [if_neg (lt_irrefl (0 : ℝ)), if_neg (lt_irrefl (0 : ℝ)),
    if_pos (by norm_num : (0 : ℝ) < 1)]
  ring

lemma wit_basePowerTerm_pos : 0 < basePowerTerm wBs wUeDirect := by
  have h : wUeDirect.lat = 0 ∧ wUeDirect.lon = 180 ∧ wBs.lat = 0 ∧ wBs.lon = 0 :=
    ⟨rfl, rfl, rfl, rfl⟩
  simp only [basePowerTerm, h.1, h.2.1, h.2.2.1, h.2.2.2, haversine_lon180]
  have hpi := Real.pi_pos
  have hE : (0 : ℝ) < EARTH_R := by norm_num [EARTH_R]
  exact pow_pos (by positivity) _

/-- Witness for C3: one direct UE a half-circumference away from the base
station, band `n77`, all noise draws 1. -/
theorem percent_formulas_witness :
    bandResult wDf wBs [wUeDirect] "n77" wBand wNu 0 =
      some ({ band := "n77",
              power_baseline := basePowerTerm wBs wUeDirect + 0,
              power_d2d := (d2dPowerTerm wBs wUeDirect + 0) + 0,
              power_saving :=
                (1 - ((d2dPowerTerm wBs wUeDirect + 0) + 0) /
                  (basePowerTerm wBs wUeDirect + 0)) * 100,
              rate_baseline :=
                baseRateTerm wBs wUeDirect wBand.fc wBand.bw (dbm_to_w wBand.eirp_dbm)
                  (wNu 0) + 0,
              rate_d2d :=
                (d2dRateTerm wBs wBs wUeDirect wBand.fc wBand.bw (dbm_to_w wBand.eirp_dbm)
                  (wNu 1) + 0) + 0,
              rate_gain :=
                ((d2dRateTerm wBs wBs wUeDirect wBand.fc wBand.bw (dbm_to_w wBand.eirp_dbm)
                    (wNu 1) + 0) + 0 -
                  (baseRateTerm wBs wUeDirect wBand.fc wBand.bw (dbm_to_w wBand.eirp_dbm)
                    (wNu 0) + 0)) /
                  (baseRateTerm wBs wUeDirect wBand.fc wBand.bw (dbm_to_w wBand.eirp_dbm)
                    (wNu 0) + 0) * 100 }, 2) :=
  percent_formulas wDf wBs [wUeDirect] "n77" wBand wNu 0
    (baseRateTerm wBs wUeDirect wBand.fc wBand.bw (dbm_to_w wBand.eirp_dbm) (wNu 0) + 0)
    (basePowerTerm wBs wUeDirect + 0) 1
    (d2dRateTerm wBs wBs wUeDirect wBand.fc wBand.bw (dbm_to_w wBand.eirp_dbm) (wNu 1) + 0)
    (d2dPowerTerm wBs wUeDirect + 0) [] 2 0 0 2 rfl rfl rfl
    (by have h := wit_basePowerTerm_pos; intro hc; linarith)
    (by
      have h := baseRateTerm_pos wBs wUeDirect wBand.fc wBand.bw (dbm_to_w wBand.eirp_dbm)
        (wNu 0) (by norm_num [wBand])
      intro hc; linarith)

lemma bandResult_some_band (df : List Node) (bs : Node) (ues : List Node) (tag : String)
    (band : Band) (ν : ℕ → ℝ) (k : ℕ) (row : Row) (k' : ℕ)
    (h : bandResult df bs ues tag band ν k = some (row, k')) : row.band = tag := by
  unfold bandResult at h
  dsimp only at h
  generalize hgen : baselinePass bs band.fc band.bw (dbm_to_w band.eirp_dbm) ν ues k = z at h
  obtain ⟨⟨rb, pb⟩, k1⟩ := z
  dsimp only at h
  split at h
  · exact absurd h (by simp)
  · split at h
    · exact absurd h (by simp)
    · split at h
      · exact absurd h (by simp)
      · split at h
        · exact absurd h (by simp)
        · simp only [Option.some.injEq, Prod.mk.injEq] at h
          rw [← h.1]

/-- Claim C8: whenever the program produces its output table, the table has
exactly 3 rows, one per predefined band, with Band values exactly
"n77", "n260", "n261" — for every input topology. -/
theorem output_three_bands (df : List Node) (ν : ℕ → ℝ) :
    match program df ν with
    | none => True
    | some rows => rows.length = 3 ∧ rows.map Row.band = ["n77", "n260", "n261"] := by
  unfold program
  cases hbs : df.find? (fun n => n.name == "BaseStation") with
  | none => trivial
  | some bs =>
    simp only [NR_BANDS, runBands]
    cases h1 : bandResult df bs (df.filter fun n => n.name != "BaseStation") "n77"
        ⟨3.7e9, 200e6, 30⟩ ν 0 with
    | none => simp [h1]
    | some v1 =>
      obtain ⟨row1, k1⟩ := v1
      cases h2 : bandResult df bs (df.filter fun n => n.name != "BaseStation") "n260"
          ⟨39e9, 1600e6, 30⟩ ν k1 with
      | none => simp [h1, h2]
      | some v2 =>
        obtain ⟨row2, k2⟩ := v2
        cases h3 : bandResult df bs (df.filter fun n => n.name != "BaseStation") "n261"
            ⟨28e9, 1600e6, 30⟩ ν k2 with
        | none => simp [h1, h2, h3]
        | some v3 =>
          obtain ⟨row3, k3⟩ := v3
          simp only [h1, h2, h3]
          refine ⟨rfl, ?_⟩
          simp only [List.map_cons, List.map_nil]
          rw [bandResult_some_band _ _ _ _ _ _ _ _ _ h1,
            bandResult_some_band _ _ _ _ _ _ _ _ _ h2,
            bandResult_some_band _ _ _ _ _ _ _ _ _ h3]

lemma baselinePass_snd (bs : Node) (fc bw pt : ℝ) (ν : ℕ → ℝ) (l : List Node) (k : ℕ) :
    (baselinePass bs fc bw pt ν l k).2 = k + l.length := by
  induction l generalizing k with
  | nil => simp [baselinePass]
  | cons ue rest ih =>
    simp only [baselinePass, ih (k + 1), List.length_cons]
    omega

lemma baselinePass_power_nu (bs : Node) (fc bw pt : ℝ) (ν₁ ν₂ : ℕ → ℝ) (l : List Node)
    (k : ℕ) :
    (baselinePass bs fc bw pt ν₁ l k).1.2 = (baselinePass bs fc bw pt ν₂ l k).1.2 := by
  induction l generalizing k with
  | nil => rfl
  | cons ue rest ih =>
    simp only [baselinePass]
    rw [ih (k + 1)]

lemma logb_floor_pos (s : ℝ) : 0 < Real.logb 2 (1 + max s 0.01) := by
  have h := le_max_right s (0.01 : ℝ)
  exact Real.logb_pos (by norm_num) (by linarith)

lemma baselinePass_rate_factor (bs : Node) (fc bw pt : ℝ) (ν : ℕ → ℝ) (l : List Node)
    (k : ℕ) :
    ∃ g : ℝ, (baselinePass bs fc bw pt ν l k).1.1 = bw * g ∧ 0 ≤ g ∧
      (l ≠ [] → 0 < g) := by
  induction l generalizing k with
  | nil => exact ⟨0, by simp [baselinePass], le_refl 0, fun h => absurd rfl h⟩
  | cons ue rest ih =>
    obtain ⟨g, hg, hg0, _⟩ := ih (k + 1)
    have hl := logb_floor_pos
      (snr_rayleigh pt (haversine_m ue.lat ue.lon bs.lat bs.lon) fc UE_TX_GAIN BS_RX_GAIN (ν k))
    refine ⟨MIMO_STREAMS * Real.logb 2
      (1 + max (snr_rayleigh pt (haversine_m ue.lat ue.lon bs.lat bs.lon) fc UE_TX_GAIN
        BS_RX_GAIN (ν k)) 0.01) + g, ?_, ?_, fun _ => ?_⟩
    · simp only [baselinePass, baseRateTerm, capacity, hg]
      ring
    · have hm : (0 : ℝ) < MIMO_STREAMS := by norm_num [MIMO_STREAMS]
      have := mul_pos hm hl
      linarith
    · have hm : (0 : ℝ) < MIMO_STREAMS := by norm_num [MIMO_STREAMS]
      have := mul_pos hm hl
      linarith

lemma baselinePass_rate_zero_iff (bs : Node) (fc bw pt : ℝ) (ν₁ ν₂ : ℕ → ℝ)
    (l : List Node) (k : ℕ) :
    (baselinePass bs fc bw pt ν₁ l k).1.1 = 0 ↔
      (baselinePass bs fc bw pt ν₂ l k).1.1 = 0 := by
  cases l with
  | nil => simp [baselinePass]
  | cons ue rest =>
    obtain ⟨g1, hg1, _, hp1⟩ := baselinePass_rate_factor bs fc bw pt ν₁ (ue :: rest) k
    obtain ⟨g2, hg2, _, hp2⟩ := baselinePass_rate_factor bs fc bw pt ν₂ (ue :: rest) k
    have h1 := hp1 (by simp)
    have h2 := hp2 (by simp)
    rw [hg1, hg2]
    constructor
    · intro h
      rcases mul_eq_zero.mp h with hb | hgz
      · rw [hb, zero_mul]
      · exact absurd hgz (ne_of_gt h1)
    · intro h
      rcases mul_eq_zero.mp h with hb | hgz
      · rw [hb, zero_mul]
      · exact absurd hgz (ne_of_gt h2)

lemma d2dPass_nu (df : List Node) (bs : Node) (fc bw pt : ℝ) (ν₁ ν₂ : ℕ → ℝ)
    (l : List Node) (k : ℕ) :
    Option.map (fun x => (x.1.2.1, x.1.2.2, x.2)) (d2dPass df bs fc bw pt ν₁ l k) =
      Option.map (fun x => (x.1.2.1, x.1.2.2, x.2)) (d2dPass df bs fc bw pt ν₂ l k) := by
  induction l generalizing k with
  | nil => rfl
  | cons ue rest ih =>
    have ihk := ih (k + 1)
    cases hres : resolveParent df bs ue with
    | none => simp [d2dPass, hres]
    | some parent =>
      cases hr1 : d2dPass df bs fc bw pt ν₁ rest (k + 1) with
      | none =>
        cases hr2 : d2dPass df bs fc bw pt ν₂ rest (k + 1) with
        | none => simp [d2dPass, hres, hr1, hr2]
        | some v2 =>
          rw [hr1, hr2] at ihk
          simp at ihk
      | some v1 =>
        cases hr2 : d2dPass df bs fc bw pt ν₂ rest (k + 1) with
        | none =>
          rw [hr1, hr2] at ihk
          simp at ihk
        | some v2 =>
          obtain ⟨⟨r1, p1, ps1⟩, k1⟩ := v1
          obtain ⟨⟨r2, p2, ps2⟩, k2⟩ := v2
          rw [hr1, hr2] at ihk
          simp only [Option.map_some', Option.some.injEq, Prod.mk.injEq] at ihk
          obtain ⟨hp, hps, hk⟩ := ihk
          subst hp hps hk
          simp [d2dPass, hres, hr1, hr2]

lemma relayPass_nu (df : List Node) (bs : Node) (fc bw pt : ℝ) (ν₁ ν₂ : ℕ → ℝ)
    (l : List Int) (k : ℕ) :
    Option.map (fun x => (x.1.2, x.2)) (relayPass df bs fc bw pt ν₁ l k) =
      Option.map (fun x => (x.1.2, x.2)) (relayPass df bs fc bw pt ν₂ l k) := by
  induction l generalizing k with
  | nil => rfl
  | cons pid rest ih =>
    have ihk := ih (k + 1)
    cases hres : df.find? (fun n => n.id == pid) with
    | none => simp [relayPass, hres]
    | some parent =>
      cases hr1 : relayPass df bs fc bw pt ν₁ rest (k + 1) with
      | none =>
        cases hr2 : relayPass df bs fc bw pt ν₂ rest (k + 1) with
        | none => simp [relayPass, hres, hr1, hr2]
        | some v2 =>
          rw [hr1, hr2] at ihk
          simp at ihk
      | some v1 =>
        cases hr2 : relayPass df bs fc bw pt ν₂ rest (k + 1) with
        | none =>
          rw [hr1, hr2] at ihk
          simp at ihk
        | some v2 =>
          obtain ⟨⟨r1, p1⟩, k1⟩ := v1
          obtain ⟨⟨r2, p2⟩, k2⟩ := v2
          rw [hr1, hr2] at ihk
          simp only [Option.map_some', Option.some.injEq, Prod.mk.injEq] at ihk
          obtain ⟨hp, hk⟩ := ihk
          subst hp hk
          simp [relayPass, hres, hr1, hr2]

/-- Claim C9: the per-band power-proxy sums, and hence the Band,
Baseline Power, D2D Power and Power Savings columns together with the
draw counter, do not depend on the random noise draws: for any two noise
oracles the band computation succeeds or fails identically, and on success
all power-derived fields agree (only the rate fields can differ); the
baseline power sum itself is draw-independent. -/
theorem power_noise_independent (df : List Node) (bs : Node) (ues : List Node)
    (tag : String) (band : Band) (ν₁ ν₂ : ℕ → ℝ) (k : ℕ) :
    Option.map (fun x => (x.1.band, x.1.power_baseline, x.1.power_d2d,
        x.1.power_saving, x.2)) (bandResult df bs ues tag band ν₁ k) =
      Option.map (fun x => (x.1.band, x.1.power_baseline, x.1.power_d2d,
        x.1.power_saving, x.2)) (bandResult df bs ues tag band ν₂ k) ∧
    (baselinePass bs band.fc band.bw (dbm_to_w band.eirp_dbm) ν₁ ues k).1.2 =
      (baselinePass bs band.fc band.bw (dbm_to_w band.eirp_dbm) ν₂ ues k).1.2 := by
  refine ⟨?_, baselinePass_power_nu bs band.fc band.bw (dbm_to_w band.eirp_dbm) ν₁ ν₂ ues k⟩
  have hpow := baselinePass_power_nu bs band.fc band.bw (dbm_to_w band.eirp_dbm) ν₁ ν₂ ues k
  have hzero := baselinePass_rate_zero_iff bs band.fc band.bw (dbm_to_w band.eirp_dbm)
    ν₁ ν₂ ues k
  have hs1 := baselinePass_snd bs band.fc band.bw (dbm_to_w band.eirp_dbm) ν₁ ues k
  have hs2 := baselinePass_snd bs band.fc band.bw (dbm_to_w band.eirp_dbm) ν₂ ues k
  rcases hB1 : baselinePass bs band.fc band.bw (dbm_to_w band.eirp_dbm) ν₁ ues k with
    ⟨⟨rb1, pb1⟩, k11⟩
  rcases hB2 : baselinePass bs band.fc band.bw (dbm_to_w band.eirp_dbm) ν₂ ues k with
    ⟨⟨rb2, pb2⟩, k12⟩
  rw [hB1, hB2] at hpow hzero
  rw [hB1] at hs1
  rw [hB2] at hs2
  simp only at hpow hzero hs1 hs2
  subst hpow
  have hk1 : k11 = k12 := by omega
  subst hk1
  have hd := d2dPass_nu df bs band.fc band.bw (dbm_to_w band.eirp_dbm) ν₁ ν₂ ues k11
  simp only [bandResult, hB1, hB2]
  cases hd1 : d2dPass df bs band.fc band.bw (dbm_to_w band.eirp_dbm) ν₁ ues k11 with
  | none =>
    cases hd2 : d2dPass df bs band.fc band.bw (dbm_to_w band.eirp_dbm) ν₂ ues k11 with
    | none => simp [hd1, hd2]
    | some v2 =>
      rw [hd1, hd2] at hd
      simp at hd
  | some v1 =>
    cases hd2 : d2dPass df bs band.fc band.bw (dbm_to_w band.eirp_dbm) ν₂ ues k11 with
    | none =>
      rw [hd1, hd2] at hd
      simp at hd
    | some v2 =>
      obtain ⟨⟨rd1, pd1, ps1⟩, k21⟩ := v1
      obtain ⟨⟨rd2, pd2, ps2⟩, k22⟩ := v2
      rw [hd1, hd2] at hd
      simp only [Option.map_some', Option.some.injEq, Prod.mk.injEq] at hd
      obtain ⟨hpd, hps, hk2⟩ := hd
      subst hpd hps hk2
      have hr := relayPass_nu df bs band.fc band.bw (dbm_to_w band.eirp_dbm) ν₁ ν₂
        ps1.dedup k21
      cases hr1 : relayPass df bs band.fc band.bw (dbm_to_w band.eirp_dbm) ν₁ ps1.dedup k21 with
      | none =>
        cases hr2 : relayPass df bs band.fc band.bw (dbm_to_w band.eirp_dbm) ν₂ ps1.dedup k21 with
        | none => simp [hd1, hd2, hr1, hr2]
        | some w2 =>
          rw [hr1, hr2] at hr
          simp at hr
      | some w1 =>
        cases hr2 : relayPass df bs band.fc band.bw (dbm_to_w band.eirp_dbm) ν₂ ps1.dedup k21 with
        | none =>
          rw [hr1, hr2] at hr
          simp at hr
        | some w2 =>
          obtain ⟨⟨rr1, pr1⟩, k31⟩ := w1
          obtain ⟨⟨rr2, pr2⟩, k32⟩ := w2
          rw [hr1, hr2] at hr
          simp only [Option.map_some', Option.some.injEq, Prod.mk.injEq] at hr
          obtain ⟨hpr, hk3⟩ := hr
          subst hpr hk3
          simp only [hd1, hd2, hr1, hr2]
          cases hq : pydiv (pd1 + pr1) pb1 with
          | none => simp [hq]
          | some q =>
            simp only [hq]
            by_cases hz : rb1 = 0
            · have hz2 : rb2 = 0 := hzero.mp hz
              simp [pydiv, hz, hz2]
            · have hz2 : rb2 ≠ 0 := fun hc => hz (hzero.mpr hc)
              simp [pydiv, hz, hz2]

end D2D

end
